import Mathlib

/-!
Verification of the incremental response-streaming subsystem of the
multi-tenant-rag frontend: the SSE-style streaming client
(`apiClient.stream` in `src/lib/api-client.ts`) and the agent stream
event schema / snapshot reducer (`src/frontend/types/agent.ts` and the
conversation page's `handleSend`).

Strings are embedded as `List Char` (JS strings are sequences of
code units; all delimiters used here are BMP characters so the
identification with `List Char` is exact on the inputs considered).
-/

namespace RagStream

/-! ## Frame decoder

Embeds the buffering logic of `stream`'s `flushBuffer`:

```
let boundary = buffer.indexOf("\n\n");
while (boundary !== -1) {
  const rawEvent = buffer.slice(0, boundary);
  buffer = buffer.slice(boundary + 2);
  handlePayload(rawEvent);
  boundary = buffer.indexOf("\n\n");
}
if (force && buffer.trim()) { handlePayload(buffer); buffer = ""; }
```

`extractFrame buf` returns the frame before the first `"\n\n"` together
with the remaining buffer (the `indexOf` / double `slice` step), or
`none` when no delimiter occurs.  The repeated extraction loop is
written with an explicit fuel argument (the loop consumes at least two
characters of the buffer per iteration, so `buf.length` fuel always
suffices); `processBuffer` instantiates the fuel.
-/

def extractFrame : List Char → Option (List Char × List Char)
  | [] => none
  | [_] => none
  | c1 :: c2 :: rest =>
    if c1 = '\n' ∧ c2 = '\n' then
      some ([], rest)
    else
      match extractFrame (c2 :: rest) with
      | none => none
      | some (f, r) => some (c1 :: f, r)

def processBufferF : Nat → List Char → List (List Char) × List Char
  | 0, buf => ([], buf)
  | fuel + 1, buf =>
    match extractFrame buf with
    | none => ([], buf)
    | some (f, r) =>
      let (fs, b) := processBufferF fuel r
      (f :: fs, b)

def processBuffer (buf : List Char) : List (List Char) × List Char :=
  processBufferF buf.length buf

/-- One call of the read loop body on a newly decoded text fragment:
`buffer += fragment` followed by the frame-extraction loop.  Returns the
frames emitted by this call and the new buffer. -/
def feed (buf : List Char) (frag : List Char) : List (List Char) × List Char :=
  processBuffer (buf ++ frag)

def feedAll : List Char → List (List Char) → List (List Char) × List Char
  | buf, [] => ([], buf)
  | buf, f :: fs =>
    let (out, b) := feed buf f
    let (out2, b2) := feedAll b fs
    (out ++ out2, b2)

/-- JS `String.prototype.trim` removes WhiteSpace and LineTerminator
characters; `buffer.trim()` is truthy iff some character of the buffer
is not one of them. -/
def isJsWhitespace (c : Char) : Bool :=
  c = ' ' ∨ c = '\t' ∨ c = '\n' ∨ c = '\r' ∨ c = '\x0b' ∨ c = '\x0c' ∨
    c = Char.ofNat 0xA0 ∨ c = Char.ofNat 0xFEFF ∨ c = Char.ofNat 0x2028 ∨
    c = Char.ofNat 0x2029

/-- The `force` branch of `flushBuffer`: at stream end the remaining
buffer is emitted as one final frame when it has non-whitespace
content. -/
def flushFrame (buf : List Char) : List (List Char) :=
  if buf.any (fun c => ¬ isJsWhitespace c) then [buf] else []

/-- Frames produced by feeding the fragments one at a time and flushing
at stream end. -/
def decodeFragments (frags : List (List Char)) : List (List Char) :=
  let (out, b) := feedAll [] frags
  out ++ flushFrame b

/-! ### Frame decoder lemmas -/

theorem extractFrame_eq : ∀ {buf f r : List Char},
    extractFrame buf = some (f, r) → buf = f ++ '\n' :: '\n' :: r := by
  intro buf
  induction buf with
  | nil => intro f r h; simp [extractFrame] at h
  | cons c1 rest ih =>
    intro f r h
    match rest with
    | [] => simp [extractFrame] at h
    | c2 :: rest' =>
      rw [extractFrame] at h
      by_cases hc : c1 = '\n' ∧ c2 = '\n'
      · rw [if_pos hc] at h
        injection h with h
        injection h with hf hr
        subst hf; subst hr
        simp [hc.1, hc.2]
      · rw [if_neg hc] at h
        cases hx : extractFrame (c2 :: rest') with
        | none => rw [hx] at h; exact absurd h (by simp)
        | some pr =>
          obtain ⟨f', r'⟩ := pr
          rw [hx] at h
          injection h with h
          injection h with hf hr
          subst hf; subst hr
          have hrec := ih hx
          simpa using congrArg (fun l => c1 :: l) hrec

theorem extractFrame_length {buf f r : List Char}
    (h : extractFrame buf = some (f, r)) : r.length < buf.length := by
  have := extractFrame_eq h
  subst this
  simp
  omega

theorem extractFrame_append_some : ∀ {s f r : List Char} (t : List Char),
    extractFrame s = some (f, r) → extractFrame (s ++ t) = some (f, r ++ t) := by
  intro s
  induction s with
  | nil => intro f r t h; simp [extractFrame] at h
  | cons c1 rest ih =>
    intro f r t h
    match rest with
    | [] => simp [extractFrame] at h
    | c2 :: rest' =>
      rw [extractFrame] at h
      rw [List.cons_append, List.cons_append, extractFrame]
      by_cases hc : c1 = '\n' ∧ c2 = '\n'
      · rw [if_pos hc] at h ⊢
        injection h with h
        injection h with hf hr
        subst hf; subst hr
        simp
      · rw [if_neg hc] at h ⊢
        cases hx : extractFrame (c2 :: rest') with
        | none => rw [hx] at h; exact absurd h (by simp)
        | some pr =>
          obtain ⟨f', r'⟩ := pr
          rw [hx] at h
          injection h with h
          injection h with hf hr
          subst hf; subst hr
          have := ih t hx
          rw [← List.cons_append, this]

theorem processBufferF_congr : ∀ (f1 f2 : Nat) (buf : List Char),
    buf.length ≤ f1 → buf.length ≤ f2 →
    processBufferF f1 buf = processBufferF f2 buf := by
  intro f1
  induction f1 with
  | zero =>
    intro f2 buf h1 _
    have hb : buf = [] := List.length_eq_zero.mp (Nat.le_zero.mp h1)
    subst hb
    cases f2 with
    | zero => rfl
    | succ f2' => simp [processBufferF, extractFrame]
  | succ f1' ih =>
    intro f2 buf h1 h2
    cases f2 with
    | zero =>
      have hb : buf = [] := List.length_eq_zero.mp (Nat.le_zero.mp h2)
      subst hb
      simp [processBufferF, extractFrame]
    | succ f2' =>
      rw [processBufferF, processBufferF]
      cases hx : extractFrame buf with
      | none => rfl
      | some pr =>
        obtain ⟨f, r⟩ := pr
        have hlen := extractFrame_length hx
        have := ih f2' r (by omega) (by omega)
        simp only [this]

theorem processBuffer_none {buf : List Char} (h : extractFrame buf = none) :
    processBuffer buf = ([], buf) := by
  rw [processBuffer]
  cases hl : buf.length with
  | zero => rfl
  | succ n => rw [processBufferF, h]

theorem processBuffer_some {buf f r : List Char}
    (h : extractFrame buf = some (f, r)) :
    processBuffer buf = (f :: (processBuffer r).1, (processBuffer r).2) := by
  have hlen := extractFrame_length h
  have heq : processBufferF buf.length r = processBuffer r := by
    rw [processBuffer]
    exact processBufferF_congr _ r.length r (by omega) (le_refl _)
  rw [processBuffer]
  cases hl : buf.length with
  | zero => omega
  | succ n =>
    rw [hl] at heq
    simp only [processBufferF, h]
    have heq' : processBufferF n r = processBuffer r := by
      rw [processBuffer]
      exact processBufferF_congr n r.length r (by omega) (le_refl _)
    rw [heq']

theorem extractFrame_processBuffer_rest_aux : ∀ (n : Nat) (buf : List Char),
    buf.length ≤ n → extractFrame (processBuffer buf).2 = none := by
  intro n
  induction n with
  | zero =>
    intro buf h
    have hb : buf = [] := List.length_eq_zero.mp (Nat.le_zero.mp h)
    subst hb
    rw [processBuffer_none (show extractFrame [] = none from rfl)]
    rfl
  | succ n ih =>
    intro buf h
    cases hx : extractFrame buf with
    | none =>
      rw [processBuffer_none hx]
      exact hx
    | some pr =>
      obtain ⟨f, r⟩ := pr
      rw [processBuffer_some hx]
      have hlen := extractFrame_length hx
      exact ih r (by omega)

theorem extractFrame_processBuffer_rest (buf : List Char) :
    extractFrame (processBuffer buf).2 = none :=
  extractFrame_processBuffer_rest_aux buf.length buf (le_refl _)

theorem processBuffer_append_aux : ∀ (n : Nat) (s : List Char),
    s.length ≤ n → ∀ (t : List Char),
    processBuffer (s ++ t) =
      ((processBuffer s).1 ++ (processBuffer ((processBuffer s).2 ++ t)).1,
       (processBuffer ((processBuffer s).2 ++ t)).2) := by
  intro n
  induction n with
  | zero =>
    intro s h t
    have hs : s = [] := List.length_eq_zero.mp (Nat.le_zero.mp h)
    subst hs
    rw [processBuffer_none (show extractFrame [] = none from rfl)]
    simp
  | succ n ih =>
    intro s h t
    cases hx : extractFrame s with
    | none =>
      rw [processBuffer_none hx]
      simp
    | some pr =>
      obtain ⟨f, r⟩ := pr
      have hlen := extractFrame_length hx
      rw [processBuffer_some hx,
        processBuffer_some (extractFrame_append_some t hx)]
      have := ih r (by omega) t
      rw [this]
      simp

theorem processBuffer_append (s t : List Char) :
    processBuffer (s ++ t) =
      ((processBuffer s).1 ++ (processBuffer ((processBuffer s).2 ++ t)).1,
       (processBuffer ((processBuffer s).2 ++ t)).2) :=
  processBuffer_append_aux s.length s (le_refl _) t

theorem feedAll_flatten : ∀ (frags : List (List Char)) (buf : List Char),
    extractFrame buf = none →
    feedAll buf frags = processBuffer (buf ++ frags.flatten) := by
  intro frags
  induction frags with
  | nil =>
    intro buf h
    rw [feedAll, List.flatten_nil, List.append_nil, processBuffer_none h]
  | cons f fs ih =>
    intro buf h
    rcases hp : processBuffer (buf ++ f) with ⟨out, b⟩
    have hb : extractFrame b = none := by
      have := extractFrame_processBuffer_rest (buf ++ f)
      rw [hp] at this
      exact this
    rw [feedAll, feed, hp]
    dsimp only
    rw [ih b hb]
    rcases hq : processBuffer (b ++ fs.flatten) with ⟨out2, b2⟩
    rw [List.flatten_cons, ← List.append_assoc,
      processBuffer_append (buf ++ f) fs.flatten, hp]
    dsimp only
    rw [hq]

/-- C4: feeding the fragments F1..Fn one at a time to the frame decoder
and flushing at stream end yields exactly the same ordered sequence of
frames as feeding their concatenation S as a single fragment. -/
theorem c4_fragmentation_invariance (frags : List (List Char)) :
    decodeFragments frags = decodeFragments [frags.flatten] := by
  rw [decodeFragments, decodeFragments,
    feedAll_flatten frags [] rfl, feedAll_flatten [frags.flatten] [] rfl]
  simp

/-! ## Payload extractor

Embeds `stream`'s `handlePayload`:

```
const payload = segment
  .split("\n")
  .filter((line) => line.startsWith("data:"))
  .map((line) => line.replace(/^data:\s?/, ""))
  .join("\n");
if (!payload) return;
if (payload === "[DONE]") { onDone?.(); throw new Error("__STREAM_COMPLETE__"); }
if (payload === "[ERROR]") { onError?.(err); throw err; }
onMessage(payload);
```
-/

/-- JS `String.prototype.split("\n")`. -/
def splitLines : List Char → List (List Char)
  | [] => [[]]
  | c :: rest =>
    if c = '\n' then [] :: splitLines rest
    else
      match splitLines rest with
      | [] => [[c]]
      | l :: ls => (c :: l) :: ls

/-- JS `Array.prototype.join("\n")`. -/
def joinLines : List (List Char) → List Char
  | [] => []
  | [l] => l
  | l :: l2 :: ls => l ++ '\n' :: joinLines (l2 :: ls)

def dataMarker : List Char := 'd' :: 'a' :: 't' :: 'a' :: ':' :: []

/-- `line.startsWith("data:")`. -/
def isDataLine (l : List Char) : Bool :=
  dataMarker.isPrefixOf l

/-- The class `\s` of the JS RegExp in `line.replace(/^data:\s?/, "")`
(whitespace characters; at most one is consumed by the `?`). -/
def isRegexSpace (c : Char) : Bool :=
  c = ' ' ∨ c = '\t' ∨ c = '\n' ∨ c = '\r' ∨ c = '\x0b' ∨ c = '\x0c' ∨
    c = Char.ofNat 0xA0 ∨ c = Char.ofNat 0xFEFF ∨ c = Char.ofNat 0x2028 ∨
    c = Char.ofNat 0x2029

/-- `line.replace(/^data:\s?/, "")`: strip the marker and at most one
following whitespace character.  Lines reaching this point always carry
the marker because of the preceding `filter`. -/
def stripData (l : List Char) : List Char :=
  if dataMarker.isPrefixOf l then
    match l.drop 5 with
    | [] => []
    | c :: cs => if isRegexSpace c then cs else c :: cs
  else l

def extractPayload (frame : List Char) : List Char :=
  joinLines (((splitLines frame).filter isDataLine).map stripData)

inductive Payload where
  | empty
  | doneSentinel
  | errSentinel
  | content (p : List Char)
  deriving DecidableEq

/-- The classification performed by `handlePayload`: `empty` is the
early `return` (no callback), the two sentinels short-circuit the
stream, and everything else is handed to `onMessage`. -/
def classifyFrame (frame : List Char) : Payload :=
  let p := extractPayload frame
  if p = [] then .empty
  else if p = "[DONE]".data then .doneSentinel
  else if p = "[ERROR]".data then .errSentinel
  else .content p

/-- C5: payload extraction keeps only the `data:`-marked lines, strips
the marker, and joins the remainder with a newline; an empty result is
ignored, the exact payloads `[DONE]` / `[ERROR]` are the completion /
error sentinels, and any other payload — including `[DONE] extra`,
which merely contains the sentinel text — is delivered to `onMessage`
as content. -/
theorem c5_payload_classification :
    (∀ frame : List Char,
      extractPayload frame =
        joinLines (((splitLines frame).filter isDataLine).map stripData)) ∧
    (∀ frame : List Char,
      extractPayload frame = [] → classifyFrame frame = .empty) ∧
    (∀ frame : List Char,
      extractPayload frame = "[DONE]".data →
        classifyFrame frame = .doneSentinel) ∧
    (∀ frame : List Char,
      extractPayload frame = "[ERROR]".data →
        classifyFrame frame = .errSentinel) ∧
    (∀ frame : List Char,
      extractPayload frame ≠ [] → extractPayload frame ≠ "[DONE]".data →
      extractPayload frame ≠ "[ERROR]".data →
        classifyFrame frame = .content (extractPayload frame)) ∧
    classifyFrame ("data: [DONE] extra".data) =
      .content ("[DONE] extra".data) := by
  refine ⟨fun _ => rfl, ?_, ?_, ?_, ?_, by decide⟩
  · intro frame h
    rw [classifyFrame]
    simp only [h]
    rfl
  · intro frame h
    rw [classifyFrame]
    simp only [h]
    decide
  · intro frame h
    rw [classifyFrame]
    simp only [h]
    decide
  · intro frame h1 h2 h3
    rw [classifyFrame]
    simp only [if_neg h1, if_neg h2, if_neg h3]

/-- Concrete instantiation of the conditional parts of C5. -/
theorem c5_witness :
    classifyFrame ("data: [DONE]".data) = .doneSentinel ∧
    classifyFrame ("data: oops".data) = .content ("oops".data) :=
  ⟨c5_payload_classification.2.2.1 _ (by decide),
   c5_payload_classification.2.2.2.2.1 _ (by decide) (by decide) (by decide)⟩

/-! ## Typed event decoder

Embeds `agentStreamEventSchema` (`src/frontend/types/agent.ts`), a zod
discriminated union on the string field `type` with seven members.
JSON values are modelled with rational numbers for JSON numbers (every
numeric literal appearing in the claims is exactly representable).
`JSON.parse` produces no `undefined`, so an absent key models zod
`undefined` and `jnull` models JSON `null`; `.nullable().optional()`
fields collapse both to `none`.  zod objects strip unknown keys and
fail when a known key is present with a non-conforming value.
-/

inductive JValue where
  | jnull
  | jbool (b : Bool)
  | jnum (q : ℚ)
  | jstr (s : String)
  | jarr (xs : List JValue)
  | jobj (fields : List (String × JValue))

def asObj : JValue → Option (List (String × JValue))
  | .jobj fs => some fs
  | _ => none

def asStr : JValue → Option String
  | .jstr s => some s
  | _ => none

def asNum : JValue → Option ℚ
  | .jnum q => some q
  | _ => none

def asBool : JValue → Option Bool
  | .jbool b => some b
  | _ => none

def asStrList : JValue → Option (List String)
  | .jarr xs => xs.mapM asStr
  | _ => none

def getKey (fields : List (String × JValue)) (k : String) : Option JValue :=
  (fields.find? (fun kv => kv.1 = k)).map (fun kv => kv.2)

/-- Required field of type `α`: missing or non-conforming fails. -/
def reqField (fields : List (String × JValue)) (k : String)
    (dec : JValue → Option α) : Option α :=
  (getKey fields k).bind dec

/-- `.optional()` field: absent is fine, present must conform
(`null` does not conform to a non-nullable base schema). -/
def optField (fields : List (String × JValue)) (k : String)
    (dec : JValue → Option α) : Option (Option α) :=
  match getKey fields k with
  | none => some none
  | some v => (dec v).map some

/-- `.nullable().optional()` field: absent and `null` both decode to
`none`. -/
def optNullField (fields : List (String × JValue)) (k : String)
    (dec : JValue → Option α) : Option (Option α) :=
  match getKey fields k with
  | none => some none
  | some .jnull => some none
  | some v => (dec v).map some

/-- `.default(d)` field: absent yields the default, present must
conform. -/
def defField (fields : List (String × JValue)) (k : String)
    (dec : JValue → Option α) (d : α) : Option α :=
  match getKey fields k with
  | none => some d
  | some v => dec v

structure AgentGuardrail where
  warnings : List String
  has_warnings : Bool
  info : List (String × JValue)

structure AgentIntent where
  intent : String
  confidence : ℚ
  reasoning : Option String
  entities : List String
  requested_action : Option String
  raw_response : Option String

structure AgentContext where
  chunk_id : Option String
  document_id : Option String
  score : ℚ
  text : String
  source : Option String

structure AgentToolResult where
  status : String
  detail : String
  data : List (String × JValue)

structure AgentAction where
  tool : String
  arguments : List (String × JValue)
  result : AgentToolResult

/-- `agentGuardrailSchema`. -/
def decodeGuardrail (v : JValue) : Option AgentGuardrail := do
  let fs ← asObj v
  let warnings ← defField fs "warnings" asStrList []
  let has_warnings ← defField fs "has_warnings" asBool false
  let info ← defField fs "info" asObj []
  pure ⟨warnings, has_warnings, info⟩

/-- `agentIntentSchema`, including `confidence: z.number().min(0).max(1)`. -/
def decodeIntent (v : JValue) : Option AgentIntent := do
  let fs ← asObj v
  let intent ← reqField fs "intent" asStr
  let confidence ← reqField fs "confidence" asNum
  if 0 ≤ confidence ∧ confidence ≤ 1 then
    let reasoning ← optField fs "reasoning" asStr
    let entities ← defField fs "entities" asStrList []
    let requested_action ← optNullField fs "requested_action" asStr
    let raw_response ← optNullField fs "raw_response" asStr
    pure ⟨intent, confidence, reasoning, entities, requested_action, raw_response⟩
  else
    none

/-- `agentContextSchema`. -/
def decodeContext (v : JValue) : Option AgentContext := do
  let fs ← asObj v
  let chunk_id ← optNullField fs "chunk_id" asStr
  let document_id ← optNullField fs "document_id" asStr
  let score ← defField fs "score" asNum 0
  let text ← reqField fs "text" asStr
  let source ← optNullField fs "source" asStr
  pure ⟨chunk_id, document_id, score, text, source⟩

/-- `agentToolResultSchema`. -/
def decodeToolResult (v : JValue) : Option AgentToolResult := do
  let fs ← asObj v
  let status ← reqField fs "status" asStr
  let detail ← reqField fs "detail" asStr
  let data ← defField fs "data" asObj []
  pure ⟨status, detail, data⟩

/-- `agentActionSchema`. -/
def decodeAction (v : JValue) : Option AgentAction := do
  let fs ← asObj v
  let tool ← reqField fs "tool" asStr
  let arguments ← defField fs "arguments" asObj []
  let result ← reqField fs "result" decodeToolResult
  pure ⟨tool, arguments, result⟩

/-- `z.array(agentContextSchema)`. -/
def asContextList : JValue → Option (List AgentContext)
  | .jarr xs => xs.mapM decodeContext
  | _ => none

inductive AgentStreamEvent where
  | statusEv (state : String) (session_id : Option String)
      (conversation_turn : Option ℚ)
  | intentEv (intent : AgentIntent) (session_id : Option String)
  | contextsEv (contexts : List AgentContext) (session_id : Option String)
  | actionEv (action : AgentAction) (session_id : Option String)
  | answerEv (text : String) (strategy : Option String)
      (subqueries : Option (List String)) (model : Option String)
      (guardrails : Option AgentGuardrail) (session_id : Option String)
  | doneEv (session_id : Option String)
  | errorEv (message : String) (session_id : Option String)

/-- `agentStreamEventSchema.parse`, as an `Option`-valued decoder: any
structurally unrecognized value (wrong discriminator, missing or
ill-typed field) yields `none`. -/
def decodeEvent (v : JValue) : Option AgentStreamEvent := do
  let fs ← asObj v
  let tag ← reqField fs "type" asStr
  if tag = "status" then
    let state ← reqField fs "state" asStr
    let sid ← optField fs "session_id" asStr
    let turn ← optField fs "conversation_turn" asNum
    pure (.statusEv state sid turn)
  else if tag = "intent" then
    let intent ← reqField fs "intent" decodeIntent
    let sid ← optField fs "session_id" asStr
    pure (.intentEv intent sid)
  else if tag = "contexts" then
    let contexts ← reqField fs "contexts" asContextList
    let sid ← optField fs "session_id" asStr
    pure (.contextsEv contexts sid)
  else if tag = "action" then
    let action ← reqField fs "action" decodeAction
    let sid ← optField fs "session_id" asStr
    pure (.actionEv action sid)
  else if tag = "answer" then
    let text ← reqField fs "text" asStr
    let strategy ← optField fs "strategy" asStr
    let subqueries ← optField fs "subqueries" asStrList
    let model ← optNullField fs "model" asStr
    let guardrails ← optField fs "guardrails" decodeGuardrail
    let sid ← optField fs "session_id" asStr
    pure (.answerEv text strategy subqueries model guardrails sid)
  else if tag = "done" then
    let sid ← optField fs "session_id" asStr
    pure (.doneEv sid)
  else if tag = "error" then
    let message ← reqField fs "message" asStr
    let sid ← optField fs "session_id" asStr
    pure (.errorEv message sid)
  else
    none

/-! ## Aggregate snapshot and reducer

Embeds the conversation page's `AgentStreamSnapshot` interface and the
`switch (event.type)` inside `handleSend`'s `onMessage`
(`setStreamSnapshot` updater).  `string | null | undefined` fields are
collapsed to `Option String` (`??` treats `null` and `undefined`
alike).  The `error` case additionally calls `setSendError`, a side
effect on a separate piece of page state outside the snapshot; it is
not part of the reducer's value.
-/

inductive StreamStatus where
  | idle
  | processing
  | complete
  | error
  deriving DecidableEq

structure AgentStreamSnapshot where
  status : StreamStatus
  answer : String
  contexts : List AgentContext
  intent : Option AgentIntent
  action : Option AgentAction
  guardrails : Option AgentGuardrail
  strategy : Option String
  subqueries : List String
  model : Option String
  errorMessage : Option String

/-- The snapshot installed by `handleSend` before streaming starts,
also the `current ?? {...}` fallback inside `onMessage`. -/
def freshSnapshot : AgentStreamSnapshot :=
  ⟨.processing, "", [], none, none, none, none, [], none, none⟩

/-- The `switch (event.type)` over the decoded event: one transition
per variant, pure in the snapshot. -/
def applyEvent (base : AgentStreamSnapshot) (e : AgentStreamEvent) :
    AgentStreamSnapshot :=
  match e with
  | .statusEv state _ _ =>
    { base with
      status := if state = "processing" then .processing else base.status }
  | .intentEv i _ => { base with intent := some i }
  | .contextsEv cs _ => { base with contexts := cs }
  | .actionEv a _ => { base with action := some a }
  | .answerEv text strategy subqueries model guardrails _ =>
    { base with
      answer := text
      strategy := strategy.orElse (fun _ => base.strategy)
      subqueries := subqueries.getD base.subqueries
      model := model.orElse (fun _ => base.model)
      guardrails := guardrails.orElse (fun _ => base.guardrails)
      status := .complete }
  | .errorEv msg _ =>
    { base with status := .error, errorMessage := some msg }
  | .doneEv _ =>
    { base with
      status := if base.status = .error then .error else .complete }

/-- One `onMessage(chunk)` call at the snapshot level: parse the chunk
against the schema; on failure log and return with the snapshot
untouched, otherwise run the reducer (with the `current ?? fresh`
fallback). -/
def onMessageStep (current : Option AgentStreamSnapshot) (j : JValue) :
    Option AgentStreamSnapshot :=
  match decodeEvent j with
  | none => current
  | some e => some (applyEvent (current.getD freshSnapshot) e)

def errorSnapshot : AgentStreamSnapshot :=
  { freshSnapshot with status := .error, errorMessage := some "boom" }

def lateAnswer : AgentStreamEvent :=
  .answerEv "late answer" none none none none none

/-- C1 as stated is false on the code: the `answer` case of the switch
sets `status: "complete"` unconditionally, so a late `Answer` applied
to an error-status snapshot downgrades it to `complete`. -/
theorem c1_counterexample :
    errorSnapshot.status = .error ∧
    (applyEvent errorSnapshot lateAnswer).status = .complete ∧
    (applyEvent errorSnapshot lateAnswer).status ≠ .error :=
  ⟨rfl, rfl, by decide⟩

/-- C1 amended: once `status` is `error`, applying `Done`, `Error`,
`Intent`, `Contexts`, `Action`, or a `Status` event whose state is not
`"processing"` leaves the status `error`; a late `Answer`, however,
sets the status to `complete`. -/
theorem c1_sticky_error_amended (snap : AgentStreamSnapshot)
    (h : snap.status = .error) :
    (∀ sid, (applyEvent snap (.doneEv sid)).status = .error) ∧
    (∀ m sid, (applyEvent snap (.errorEv m sid)).status = .error) ∧
    (∀ i sid, (applyEvent snap (.intentEv i sid)).status = .error) ∧
    (∀ cs sid, (applyEvent snap (.contextsEv cs sid)).status = .error) ∧
    (∀ a sid, (applyEvent snap (.actionEv a sid)).status = .error) ∧
    (∀ st sid ct, st ≠ "processing" →
      (applyEvent snap (.statusEv st sid ct)).status = .error) ∧
    (∀ t stg sq mo g sid,
      (applyEvent snap (.answerEv t stg sq mo g sid)).status = .complete) := by
  refine ⟨?_, ?_, ?_, ?_, ?_, ?_, ?_⟩
  · intro sid; simp [applyEvent, h]
  · intro m sid; simp [applyEvent]
  · intro i sid; simp [applyEvent, h]
  · intro cs sid; simp [applyEvent, h]
  · intro a sid; simp [applyEvent, h]
  · intro st sid ct hst; simp [applyEvent, hst, h]
  · intro t stg sq mo g sid; simp [applyEvent]

/-- Concrete instantiation of the amended C1. -/
theorem c1_witness :
    (applyEvent errorSnapshot (.doneEv none)).status = .error ∧
    (applyEvent errorSnapshot lateAnswer).status = .complete :=
  ⟨(c1_sticky_error_amended errorSnapshot rfl).1 none,
   (c1_sticky_error_amended errorSnapshot rfl).2.2.2.2.2.2
     "late answer" none none none none none⟩

def completeSnapshot : AgentStreamSnapshot :=
  { freshSnapshot with status := .complete }

/-- C2 as stated is false on the code: the `status` case of the switch
has no terminal-state guard (`event.state === "processing" ?
"processing" : base.status`), so a `Status{state:"processing"}` event
reverts a `complete` snapshot to `processing`. -/
theorem c2_counterexample :
    completeSnapshot.status = .complete ∧
    (applyEvent completeSnapshot (.statusEv "processing" none none)).status
      = .processing ∧
    (applyEvent completeSnapshot (.statusEv "processing" none none)).status
      ≠ .complete :=
  ⟨rfl, by decide, by decide⟩

/-- C2 amended: a `Status` event sets the status to `processing`
whenever its state is the string `"processing"` — even on a terminal
snapshot — and leaves the status unchanged for any other state. -/
theorem c2_status_event_amended (snap : AgentStreamSnapshot)
    (st : String) (sid : Option String) (ct : Option ℚ) :
    (applyEvent snap (.statusEv st sid ct)).status =
      if st = "processing" then .processing else snap.status := rfl

/-- C6: the reducer step driven by `onMessage` is a pure, total
function of the snapshot: a payload that fails to parse as one of the
7 recognized shapes is dropped before the reducer runs, leaving the
snapshot unchanged (and the stream alive), while a successfully parsed
event is handed to the (everywhere-defined, non-raising) transition
`applyEvent`. -/
theorem c6_reducer_totality :
    (∀ (cur : Option AgentStreamSnapshot) (j : JValue),
      decodeEvent j = none → onMessageStep cur j = cur) ∧
    (∀ (cur : Option AgentStreamSnapshot) (j : JValue)
      (e : AgentStreamEvent), decodeEvent j = some e →
      onMessageStep cur j = some (applyEvent (cur.getD freshSnapshot) e)) := by
  constructor
  · intro cur j h; rw [onMessageStep, h]
  · intro cur j e h; rw [onMessageStep, h]

def malformedJson : JValue :=
  .jobj [("type", .jstr "bogus"), ("text", .jstr "?")]

def doneJson : JValue := .jobj [("type", .jstr "done")]

/-- Concrete instantiation of C6: an unrecognized tag leaves the
snapshot unchanged, a recognized `done` payload reaches the reducer. -/
theorem c6_witness :
    onMessageStep (some freshSnapshot) malformedJson = some freshSnapshot ∧
    onMessageStep (some freshSnapshot) doneJson =
      some (applyEvent freshSnapshot (.doneEv none)) :=
  ⟨c6_reducer_totality.1 (some freshSnapshot) malformedJson rfl,
   c6_reducer_totality.2 (some freshSnapshot) doneJson (.doneEv none) rfl⟩

def statusJson : JValue :=
  .jobj [("type", .jstr "status"), ("state", .jstr "processing")]

/-- `0.92` as a reduced rational (kernel-reducible literal). -/
def conf092 : ℚ := ⟨23, 25, by norm_num, by norm_num⟩

/-- `0.8` as a reduced rational (kernel-reducible literal). -/
def score08 : ℚ := ⟨4, 5, by norm_num, by norm_num⟩

def intentJson : JValue :=
  .jobj [("type", .jstr "intent"),
    ("intent", .jobj [("intent", .jstr "create_task"),
      ("confidence", .jnum conf092)])]

def contextsJson : JValue :=
  .jobj [("type", .jstr "contexts"),
    ("contexts", .jarr [.jobj [("text", .jstr "doc A"),
      ("score", .jnum score08)]])]

def answerJson : JValue :=
  .jobj [("type", .jstr "answer"), ("text", .jstr "Created task #12"),
    ("strategy", .jstr "informed")]

/-- C9: the event sequence `status{processing}`, `intent{create_task,
0.92}`, `contexts{[doc A]}`, `answer{Created task #12, informed}`
applied to a fresh snapshot yields status `complete`, intent
`create_task`, exactly one context item, answer `Created task #12`,
and strategy `informed`. -/
theorem c9_end_to_end :
    (([statusJson, intentJson, contextsJson, answerJson].foldl
        onMessageStep (some freshSnapshot)).map
      (fun s => (s.status, s.answer, s.strategy, s.contexts.length,
        s.intent.map (fun i => i.intent)))) =
    some (.complete, "Created task #12", some "informed", 1,
      some "create_task") := by
  decide

/-! ## Stream session controller

Operational model of the whole `stream` function.  A run is driven by
the outcome of `fetch` and, when a body is obtained, by the sequence
of `reader.read()` results.  The observable behaviour is the ordered
list of callback invocations (`onMessage` / `onError` / `onDone`),
plus whether the returned promise resolves or rejects.  `onError`
invocations are tagged with the identity of the `Error` value passed:

* `httpStatus` — the `!response.ok` error (thrown, then re-reported by
  the outer catch);
* `noBody` — the `!response.body` error;
* `streamReported` — the `[ERROR]`-sentinel error created in
  `handlePayload`;
* `aborted` — a `DOMException` named `AbortError`;
* `readFailure` — any other rejection of `reader.read()`;
* `fetchFailure` — a non-abort rejection of `fetch` itself.

The `__STREAM_COMPLETE__` control exception is modelled by
`ThrowKind.completeMarker`; the inner catch swallows it.  The `finally`
clause (`reader.releaseLock()`) performs no callback and is not part of
the observable trace.
-/

inductive ErrKind where
  | httpStatus
  | noBody
  | streamReported
  | aborted
  | readFailure
  | fetchFailure
  deriving DecidableEq

inductive Call where
  | message (p : List Char)
  | errorCall (k : ErrKind)
  | doneCall
  deriving DecidableEq

inductive ThrowKind where
  | completeMarker
  | streamErr
  | abortExc
  | readExc
  deriving DecidableEq

/-- Effect of `handlePayload` on one frame: the callbacks it fires and
the exception it throws, if any (completion marker or sentinel
error). -/
def handleFrame (frame : List Char) : List Call × Option ThrowKind :=
  match classifyFrame frame with
  | .empty => ([], none)
  | .doneSentinel => ([.doneCall], some .completeMarker)
  | .errSentinel => ([.errorCall .streamReported], some .streamErr)
  | .content p => ([.message p], none)

/-- The non-force part of `flushBuffer`: extract complete frames and
run `handlePayload` on each until a throw or no delimiter remains.
Fuel as in `processBufferF`. -/
def flushLoopF : Nat → List Char → List Call × List Char × Option ThrowKind
  | 0, buf => ([], buf, none)
  | fuel + 1, buf =>
    match extractFrame buf with
    | none => ([], buf, none)
    | some (f, r) =>
      let (cs, t) := handleFrame f
      match t with
      | some k => (cs, r, some k)
      | none =>
        let (cs2, r2, t2) := flushLoopF fuel r
        (cs ++ cs2, r2, t2)

def flushLoop (buf : List Char) : List Call × List Char × Option ThrowKind :=
  flushLoopF buf.length buf

/-- `flushBuffer(true)`: after the extraction loop, a trailing
non-whitespace buffer is handed to `handlePayload` as a final frame. -/
def flushForce (buf : List Char) : List Call × Option ThrowKind :=
  let (cs, r, t) := flushLoop buf
  match t with
  | some k => (cs, some k)
  | none =>
    if r.any (fun c => ¬ isJsWhitespace c) then
      let (cs2, t2) := handleFrame r
      (cs ++ cs2, t2)
    else (cs, none)

/-- One result of `reader.read()`: a decoded text chunk, a rejection
with `AbortError` (cancellation via the abort handle), or a rejection
with any other error.  Exhausting the list models `done: true`. -/
inductive ReadStep where
  | chunk (s : List Char)
  | abortRead
  | failRead

/-- The `while (true)` read loop, up to the end of the inner `try`:
returns the callbacks fired and the exception escaping the loop body,
if any. -/
def readLoop : List Char → List ReadStep → List Call × Option ThrowKind
  | buf, [] =>
    let (cs, t) := flushForce buf
    match t with
    | some k => (cs, some k)
    | none => (cs ++ [.doneCall], none)
  | buf, .chunk s :: rest =>
    let (cs, r, t) := flushLoop (buf ++ s)
    match t with
    | some k => (cs, some k)
    | none =>
      let (cs2, t2) := readLoop r rest
      (cs ++ cs2, t2)
  | _, .abortRead :: _ => ([], some .abortExc)
  | _, .failRead :: _ => ([], some .readExc)

/-- The inner `catch`: `__STREAM_COMPLETE__` is swallowed (`return`),
any other exception is re-reported via `onError` and rethrown. -/
def innerStage (reads : List ReadStep) : List Call × Option ThrowKind :=
  let (cs, t) := readLoop [] reads
  match t with
  | none => (cs, none)
  | some .completeMarker => (cs, none)
  | some .streamErr => (cs ++ [.errorCall .streamReported], some .streamErr)
  | some .abortExc => (cs ++ [.errorCall .aborted], some .abortExc)
  | some .readExc => (cs ++ [.errorCall .readFailure], some .readExc)

inductive FetchResult where
  | fetchRejects (isAbort : Bool)
  | fetchResolves (ok : Bool) (hasBody : Bool) (reads : List ReadStep)

inductive Outcome where
  | resolved
  | rejected
  deriving DecidableEq

/-- The whole `stream` function: the `!response.ok` / `!response.body`
checks, the read loop with its two catches, and the outer catch, which
reports every escaping error once more via `onError` (in both its
`AbortError` branch and its generic branch) and rethrows. -/
def streamModel : FetchResult → List Call × Outcome
  | .fetchRejects true => ([.errorCall .aborted], .rejected)
  | .fetchRejects false => ([.errorCall .fetchFailure], .rejected)
  | .fetchResolves false _ _ =>
    ([.errorCall .httpStatus, .errorCall .httpStatus], .rejected)
  | .fetchResolves true false _ =>
    ([.errorCall .noBody, .errorCall .noBody], .rejected)
  | .fetchResolves true true reads =>
    let (cs, t) := innerStage reads
    match t with
    | none => (cs, .resolved)
    | some .completeMarker => (cs, .resolved)
    | some .streamErr => (cs ++ [.errorCall .streamReported], .rejected)
    | some .abortExc => (cs ++ [.errorCall .aborted], .rejected)
    | some .readExc => (cs ++ [.errorCall .readFailure], .rejected)

def errCount (cs : List Call) : Nat :=
  cs.countP (fun c => match c with | .errorCall _ => true | _ => false)

def msgCount (cs : List Call) : Nat :=
  cs.countP (fun c => match c with | .message _ => true | _ => false)

def doneCount (cs : List Call) : Nat :=
  cs.countP (fun c => match c with | .doneCall => true | _ => false)

/-! ### Controller lemmas -/

theorem errCount_append (a b : List Call) :
    errCount (a ++ b) = errCount a + errCount b := by
  simp [errCount, List.countP_append]

theorem msgCount_append (a b : List Call) :
    msgCount (a ++ b) = msgCount a + msgCount b := by
  simp [msgCount, List.countP_append]

theorem doneCount_append (a b : List Call) :
    doneCount (a ++ b) = doneCount a + doneCount b := by
  simp [doneCount, List.countP_append]

theorem handleFrame_errCount (f : List Char) :
    errCount (handleFrame f).1 =
      (if (handleFrame f).2 = some .streamErr then 1 else 0) := by
  rw [handleFrame]
  cases classifyFrame f <;> simp [errCount]

theorem flushLoopF_errCount : ∀ (fuel : Nat) (buf : List Char),
    errCount (flushLoopF fuel buf).1 =
      (if (flushLoopF fuel buf).2.2 = some .streamErr then 1 else 0) := by
  intro fuel
  induction fuel with
  | zero => intro buf; simp [flushLoopF, errCount]
  | succ fuel ih =>
    intro buf
    cases hx : extractFrame buf with
    | none => simp [flushLoopF, hx, errCount]
    | some pr =>
      obtain ⟨f, r⟩ := pr
      rcases hfl : flushLoopF fuel r with ⟨cs2, r2, t2⟩
      have hihr := ih r
      rw [hfl] at hihr
      cases hf : classifyFrame f with
      | empty =>
        simp only [flushLoopF, hx, handleFrame, hf, hfl]
        simpa [errCount_append] using hihr
      | doneSentinel => simp [flushLoopF, hx, handleFrame, hf, errCount]
      | errSentinel => simp [flushLoopF, hx, handleFrame, hf, errCount]
      | content p =>
        simp only [flushLoopF, hx, handleFrame, hf, hfl]
        simpa [errCount_append, errCount] using hihr

theorem flushLoop_errCount (buf : List Char) :
    errCount (flushLoop buf).1 =
      (if (flushLoop buf).2.2 = some .streamErr then 1 else 0) :=
  flushLoopF_errCount buf.length buf

theorem flushForce_errCount (buf : List Char) :
    errCount (flushForce buf).1 =
      (if (flushForce buf).2 = some .streamErr then 1 else 0) := by
  have hfl := flushLoop_errCount buf
  rcases hl : flushLoop buf with ⟨cs, r, t⟩
  rw [hl] at hfl
  rw [flushForce, hl]
  cases t with
  | some k =>
    dsimp only
    simpa using hfl
  | none =>
    have hcs : errCount cs = 0 := by simpa using hfl
    dsimp only
    split
    · rcases hh : handleFrame r with ⟨cs2, t2⟩
      have hhf := handleFrame_errCount r
      rw [hh] at hhf
      dsimp only
      rw [errCount_append, hcs]
      simpa using hhf
    · simpa using hcs

theorem readLoop_errCount : ∀ (reads : List ReadStep) (buf : List Char),
    errCount (readLoop buf reads).1 =
      (if (readLoop buf reads).2 = some .streamErr then 1 else 0) := by
  intro reads
  induction reads with
  | nil =>
    intro buf
    have hff := flushForce_errCount buf
    rcases hf : flushForce buf with ⟨cs, t⟩
    rw [hf] at hff
    rw [readLoop, hf]
    cases t with
    | some k =>
      dsimp only
      simpa using hff
    | none =>
      have hcs : errCount cs = 0 := by simpa using hff
      dsimp only
      rw [errCount_append, hcs]
      decide
  | cons step rest ih =>
    intro buf
    cases step with
    | chunk s =>
      have hfl := flushLoop_errCount (buf ++ s)
      rcases hl : flushLoop (buf ++ s) with ⟨cs, r, t⟩
      rw [hl] at hfl
      rw [readLoop, hl]
      cases t with
      | some k =>
        dsimp only
        simpa using hfl
      | none =>
        have hcs : errCount cs = 0 := by simpa using hfl
        have hr := ih r
        rcases hrl : readLoop r rest with ⟨cs2, t2⟩
        rw [hrl] at hr
        dsimp only
        rw [hrl]
        dsimp only
        rw [errCount_append, hcs]
        simpa using hr
    | abortRead => simp [readLoop, errCount]
    | failRead => simp [readLoop, errCount]

theorem innerStage_errCount (reads : List ReadStep) :
    errCount (innerStage reads).1 =
      (match (innerStage reads).2 with
        | none => 0
        | some .streamErr => 2
        | some _ => 1) ∧
    (innerStage reads).2 ≠ some .completeMarker := by
  have hrl := readLoop_errCount reads []
  rcases hl : readLoop [] reads with ⟨cs, t⟩
  rw [hl] at hrl
  rw [innerStage, hl]
  cases t with
  | none =>
    have hcs : errCount cs = 0 := by simpa using hrl
    dsimp only
    exact ⟨hcs, by simp⟩
  | some k =>
    cases k with
    | completeMarker =>
      have hcs : errCount cs = 0 := by simpa using hrl
      dsimp only
      exact ⟨hcs, by simp⟩
    | streamErr =>
      have hcs : errCount cs = 1 := by simpa using hrl
      dsimp only
      refine ⟨?_, by simp⟩
      rw [errCount_append, hcs]
      decide
    | abortExc =>
      have hcs : errCount cs = 0 := by simpa using hrl
      dsimp only
      refine ⟨?_, by simp⟩
      rw [errCount_append, hcs]
      decide
    | readExc =>
      have hcs : errCount cs = 0 := by simpa using hrl
      dsimp only
      refine ⟨?_, by simp⟩
      rw [errCount_append, hcs]
      decide


/-- Partial evaluation of the read loop on a run of chunk steps under
the assumption that no frame throws: the callbacks fired and the buffer
reached, or `none` when a throw occurred or a non-chunk step was hit. -/
def chunksNoThrow : List Char → List ReadStep → Option (List Call × List Char)
  | buf, [] => some ([], buf)
  | buf, .chunk s :: rest =>
    match flushLoop (buf ++ s) with
    | (cs, r, none) => (chunksNoThrow r rest).map (fun p => (cs ++ p.1, p.2))
    | (_, _, some _) => none
  | _, .abortRead :: _ => none
  | _, .failRead :: _ => none

theorem readLoop_chunks : ∀ (pre : List ReadStep) (buf : List Char)
    (cs : List Call) (b : List Char) (rest : List ReadStep),
    chunksNoThrow buf pre = some (cs, b) →
    readLoop buf (pre ++ rest) =
      (cs ++ (readLoop b rest).1, (readLoop b rest).2) := by
  intro pre
  induction pre with
  | nil =>
    intro buf cs b rest h
    rw [chunksNoThrow] at h
    injection h with h
    injection h with hcs hb
    subst hcs; subst hb
    simp
  | cons step pre ih =>
    intro buf cs b rest h
    cases step with
    | chunk s =>
      rw [chunksNoThrow] at h
      rcases hl : flushLoop (buf ++ s) with ⟨cs1, r, t⟩
      rw [hl] at h
      cases t with
      | some k => simp at h
      | none =>
        dsimp only at h
        cases hc : chunksNoThrow r pre with
        | none => rw [hc] at h; simp at h
        | some p =>
          obtain ⟨cs2, b2⟩ := p
          rw [hc] at h
          rw [Option.map_some'] at h
          injection h with h
          injection h with hcs hb
          subst hb
          rcases hrl : readLoop b2 rest with ⟨cs3, t3⟩
          have hih := ih r cs2 b2 rest hc
          rw [hrl] at hih
          dsimp only at hih
          rw [List.cons_append, readLoop, hl]
          dsimp only
          rw [hih]
          dsimp only
          rw [← hcs, List.append_assoc]
    | abortRead => rw [chunksNoThrow] at h; exact absurd h (by simp)
    | failRead => rw [chunksNoThrow] at h; exact absurd h (by simp)

/-- C3 as stated is false on the code: canceling mid-read routes the
`AbortError` through the generic `onError` callback, and does so twice
(once in the read-loop catch and once in the outer catch's `AbortError`
branch), so the cancellation signal is not "exactly once" and is
delivered through `onError`. -/
theorem c3_counterexample :
    (streamModel (.fetchResolves true true
        [.chunk ("data: hi\n\n".data), .abortRead])).1
      = [.message ("hi".data), .errorCall .aborted, .errorCall .aborted] ∧
    errCount (streamModel (.fetchResolves true true
        [.chunk ("data: hi\n\n".data), .abortRead])).1 ≠ 1 := by
  decide

/-- C3 amended: canceling an active stream mid-read surfaces the
cancellation as the distinct `AbortError` marker passed to the generic
`onError` callback — invoked twice, once by the read-loop catch and
once by the outer catch — after which no further `onMessage` or
`onDone` invocation occurs (the trace ends with the two abort
reports), the promise rejects, and `onDone` is never invoked for the
cancellation. -/
theorem c3_abort_amended (pre rest : List ReadStep) (cs : List Call)
    (b : List Char) (h : chunksNoThrow [] pre = some (cs, b)) :
    streamModel (.fetchResolves true true (pre ++ .abortRead :: rest))
      = (cs ++ [.errorCall .aborted, .errorCall .aborted], .rejected) ∧
    msgCount (cs ++ [.errorCall .aborted, .errorCall .aborted]) = msgCount cs ∧
    doneCount (cs ++ [.errorCall .aborted, .errorCall .aborted])
      = doneCount cs := by
  have hab : readLoop b (.abortRead :: rest) = ([], some .abortExc) := by
    rw [readLoop]
  have hrl := readLoop_chunks pre [] cs b (.abortRead :: rest) h
  rw [hab] at hrl
  dsimp only at hrl
  refine ⟨?_, ?_, ?_⟩
  · rw [streamModel, innerStage, hrl]
    dsimp only
    rw [List.append_nil, List.append_assoc]
    rfl
  · have h2 : msgCount [Call.errorCall .aborted, Call.errorCall .aborted] = 0 :=
      by decide
    rw [msgCount_append, h2]
    omega
  · have h2 : doneCount [Call.errorCall .aborted, Call.errorCall .aborted] = 0 :=
      by decide
    rw [doneCount_append, h2]
    omega

/-- Concrete instantiation of the amended C3. -/
theorem c3_witness :
    streamModel (.fetchResolves true true
        ([.chunk ("data: hi\n\n".data)] ++ .abortRead :: []))
      = ([.message ("hi".data)]
          ++ [.errorCall .aborted, .errorCall .aborted], .rejected) :=
  (c3_abort_amended [.chunk ("data: hi\n\n".data)] [] [.message ("hi".data)]
    [] (by decide)).1

/-- C7: a non-2xx streaming response signals failure via the error
path before any frame decoding: the run is independent of the body
reads (the body is never read), fires no `onMessage` and no `onDone`,
and the operation fails. -/
theorem c7_non2xx_no_decode (hasBody : Bool) (reads : List ReadStep) :
    streamModel (.fetchResolves false hasBody reads)
      = ([.errorCall .httpStatus, .errorCall .httpStatus], .rejected) ∧
    streamModel (.fetchResolves false hasBody reads)
      = streamModel (.fetchResolves false hasBody []) ∧
    msgCount (streamModel (.fetchResolves false hasBody reads)).1 = 0 ∧
    doneCount (streamModel (.fetchResolves false hasBody reads)).1 = 0 ∧
    (streamModel (.fetchResolves false hasBody reads)).2 = .rejected := by
  refine ⟨rfl, rfl, ?_, ?_, rfl⟩
  · show msgCount [Call.errorCall .httpStatus, Call.errorCall .httpStatus] = 0
    decide
  · show doneCount [Call.errorCall .httpStatus, Call.errorCall .httpStatus] = 0
    decide

/-- C10 as stated is false on the code in its universal part: when the
`fetch` call itself rejects with a non-abort error (connection
failure), the only `onError` report is the outer catch's, so this
single failure cause produces exactly one `onError` invocation. -/
theorem c10_counterexample :
    errCount (streamModel (.fetchRejects false)).1 = 1 ∧
    (streamModel (.fetchRejects false)).2 = .rejected := by
  decide

/-- C10 amended: a body delivering the `[ERROR]` sentinel invokes
`onError` three times for the one cause (sentinel classification,
read-loop catch, outer catch) and the promise rejects; a non-2xx
response invokes `onError` twice; and every failing run whose `fetch`
resolved reports at least two `onError` invocations (only a rejection
of `fetch` itself yields a single one). -/
theorem c10_onerror_multiplicity :
    (streamModel (.fetchResolves true true
        [.chunk ("data: [ERROR]\n\n".data)])).1
      = [.errorCall .streamReported, .errorCall .streamReported,
         .errorCall .streamReported] ∧
    (streamModel (.fetchResolves true true
        [.chunk ("data: [ERROR]\n\n".data)])).2 = .rejected ∧
    streamModel (.fetchResolves false true [])
      = ([.errorCall .httpStatus, .errorCall .httpStatus], .rejected) ∧
    (∀ (ok hasBody : Bool) (reads : List ReadStep),
      errCount (streamModel (.fetchResolves ok hasBody reads)).1 = 0 ∨
        2 ≤ errCount (streamModel (.fetchResolves ok hasBody reads)).1) := by
  refine ⟨by decide, by decide, rfl, ?_⟩
  intro ok hasBody reads
  cases ok with
  | false =>
    right
    show 2 ≤ errCount [Call.errorCall .httpStatus, Call.errorCall .httpStatus]
    decide
  | true =>
    cases hasBody with
    | false =>
      right
      show 2 ≤ errCount [Call.errorCall .noBody, Call.errorCall .noBody]
      decide
    | true =>
      obtain ⟨hcount, hnc⟩ := innerStage_errCount reads
      rcases hi : innerStage reads with ⟨cs, t⟩
      rw [hi] at hcount hnc
      dsimp only at hcount hnc
      cases t with
      | none =>
        left
        rw [streamModel, hi]
        dsimp only
        simpa using hcount
      | some k =>
        cases k with
        | completeMarker => exact absurd rfl hnc
        | streamErr =>
          right
          rw [streamModel, hi]
          dsimp only
          rw [errCount_append]
          simp only at hcount
          omega
        | abortExc =>
          right
          rw [streamModel, hi]
          dsimp only
          rw [errCount_append]
          simp only at hcount
          have h1 : errCount [Call.errorCall ErrKind.aborted] = 1 := by decide
          omega
        | readExc =>
          right
          rw [streamModel, hi]
          dsimp only
          rw [errCount_append]
          simp only at hcount
          have h1 : errCount [Call.errorCall ErrKind.readFailure] = 1 := by
            decide
          omega

/-! ## Streaming text decoder

`stream` creates a single `new TextDecoder()` per stream and calls
`decoder.decode(value, { stream: true })` on every chunk, so decoder
state is retained between fragment-processing calls and a partial
multi-byte sequence at the end of one fragment is completed by the
next.  Modelled with the WHATWG UTF-8 decoder state machine over byte
values (`Nat`); outputs are Unicode scalar values (`Nat`).  In the
default error mode the decoder emits U+FFFD for invalid input; the
`TextDecoder` BOM rule (with the default `ignoreBOM: false`, an
initial U+FEFF is skipped) is applied to the head of the whole output
stream.  The code never makes a final non-streaming `decode()` call,
so no end-of-stream flush occurs.
-/

structure Utf8State where
  codepoint : Nat
  needed : Nat
  seen : Nat
  lower : Nat
  upper : Nat
  deriving DecidableEq

def utf8Init : Utf8State := ⟨0, 0, 0, 0x80, 0xBF⟩

/-- One byte consumed in the start state (`bytesNeeded = 0`). -/
def pushStart (b : Nat) : Utf8State × List Nat :=
  if b ≤ 0x7F then (utf8Init, [b])
  else if 0xC2 ≤ b ∧ b ≤ 0xDF then
    ({ utf8Init with needed := 1, codepoint := b % 32 }, [])
  else if 0xE0 ≤ b ∧ b ≤ 0xEF then
    (⟨b % 16, 2, 0, if b = 0xE0 then 0xA0 else 0x80,
      if b = 0xED then 0x9F else 0xBF⟩, [])
  else if 0xF0 ≤ b ∧ b ≤ 0xF4 then
    (⟨b % 8, 3, 0, if b = 0xF0 then 0x90 else 0x80,
      if b = 0xF4 then 0x8F else 0xBF⟩, [])
  else (utf8Init, [0xFFFD])

/-- One byte of input.  With `bytesNeeded ≠ 0` an in-range byte
continues the sequence; an out-of-range byte emits U+FFFD and the byte
is reprocessed as a sequence start (the WHATWG restart rule). -/
def pushByte (st : Utf8State) (b : Nat) : Utf8State × List Nat :=
  if st.needed = 0 then pushStart b
  else if st.lower ≤ b ∧ b ≤ st.upper then
    let cp := st.codepoint * 64 + b % 64
    if st.seen + 1 = st.needed then (utf8Init, [cp])
    else (⟨cp, st.needed, st.seen + 1, 0x80, 0xBF⟩, [])
  else
    let (st2, out) := pushStart b
    (st2, 0xFFFD :: out)

def pushBytes : Utf8State → List Nat → Utf8State × List Nat
  | st, [] => (st, [])
  | st, b :: bs =>
    let (st2, out) := pushByte st b
    let (st3, out2) := pushBytes st2 bs
    (st3, out ++ out2)

/-- `decoder.decode(fragment, { stream: true })` iterated over the
fragments, retaining the decoder state in between. -/
def decodeChunksRaw : Utf8State → List (List Nat) → Utf8State × List Nat
  | st, [] => (st, [])
  | st, f :: fs =>
    let (st2, out) := pushBytes st f
    let (st3, out2) := decodeChunksRaw st2 fs
    (st3, out ++ out2)

/-- The BOM rule applied to the whole output stream: with the default
`ignoreBOM: false` the decoder skips the stream's first code point when
it is U+FEFF. -/
def stripBom : List Nat → List Nat
  | [] => []
  | x :: rest => if x = 0xFEFF then rest else x :: rest

def decodeChunks (frags : List (List Nat)) : List Nat :=
  stripBom (decodeChunksRaw utf8Init frags).2

/-- UTF-8 encoding of one Unicode scalar value. -/
def utf8EncodeChar (n : Nat) : List Nat :=
  if n ≤ 0x7F then [n]
  else if n ≤ 0x7FF then [0xC0 + n / 64, 0x80 + n % 64]
  else if n ≤ 0xFFFF then
    [0xE0 + n / 4096, 0x80 + (n / 64) % 64, 0x80 + n % 64]
  else
    [0xF0 + n / 262144, 0x80 + (n / 4096) % 64, 0x80 + (n / 64) % 64,
      0x80 + n % 64]

def utf8Encode (s : List Char) : List Nat :=
  (s.map (fun c => utf8EncodeChar c.toNat)).flatten

/-! ### Decoder lemmas -/

theorem pushBytes_append : ∀ (a : List Nat) (st : Utf8State) (b : List Nat),
    pushBytes st (a ++ b) =
      ((pushBytes (pushBytes st a).1 b).1,
       (pushBytes st a).2 ++ (pushBytes (pushBytes st a).1 b).2) := by
  intro a
  induction a with
  | nil => intro st b; simp [pushBytes]
  | cons x xs ih =>
    intro st b
    rcases hp : pushByte st x with ⟨st2, out⟩
    rcases hq : pushBytes st2 xs with ⟨st3, out2⟩
    have hxs := ih st2 b
    rw [hq] at hxs
    dsimp only at hxs
    rw [List.cons_append, pushBytes, hp]
    dsimp only
    rw [hxs, pushBytes, hp]
    dsimp only
    rw [hq]
    dsimp only
    rcases hr : pushBytes st3 b with ⟨st4, out3⟩
    dsimp only
    rw [List.append_assoc]

theorem decodeChunksRaw_flatten : ∀ (frags : List (List Nat))
    (st : Utf8State), decodeChunksRaw st frags = pushBytes st frags.flatten := by
  intro frags
  induction frags with
  | nil => intro st; simp [decodeChunksRaw, pushBytes]
  | cons f fs ih =>
    intro st
    rcases hp : pushBytes st f with ⟨st2, out⟩
    have hap := pushBytes_append f st fs.flatten
    rw [hp] at hap
    dsimp only at hap
    rw [List.flatten_cons, hap, decodeChunksRaw, hp]
    dsimp only
    rw [ih st2]

theorem pushStart_ascii {b : Nat} (h : b ≤ 0x7F) :
    pushStart b = (utf8Init, [b]) := by
  rw [pushStart, if_pos h]

theorem pushStart_two {b : Nat} (h : 0xC2 ≤ b ∧ b ≤ 0xDF) :
    pushStart b = (⟨b % 32, 1, 0, 0x80, 0xBF⟩, []) := by
  rw [pushStart, if_neg (by omega), if_pos h]
  rfl

theorem pushStart_three {b : Nat} (h : 0xE0 ≤ b ∧ b ≤ 0xEF) :
    pushStart b = (⟨b % 16, 2, 0, if b = 0xE0 then 0xA0 else 0x80,
      if b = 0xED then 0x9F else 0xBF⟩, []) := by
  rw [pushStart, if_neg (by omega), if_neg (by omega), if_pos h]

theorem pushStart_four {b : Nat} (h : 0xF0 ≤ b ∧ b ≤ 0xF4) :
    pushStart b = (⟨b % 8, 3, 0, if b = 0xF0 then 0x90 else 0x80,
      if b = 0xF4 then 0x8F else 0xBF⟩, []) := by
  rw [pushStart, if_neg (by omega), if_neg (by omega), if_neg (by omega),
    if_pos h]

theorem pushByte_cont {cp nd sn lo up b : Nat} (hnd : nd ≠ 0)
    (hb : lo ≤ b ∧ b ≤ up) :
    pushByte ⟨cp, nd, sn, lo, up⟩ b =
      (if sn + 1 = nd then ((utf8Init : Utf8State), [cp * 64 + b % 64])
       else (⟨cp * 64 + b % 64, nd, sn + 1, 0x80, 0xBF⟩, [])) := by
  rw [pushByte, if_neg hnd, if_pos hb]

theorem pushBytes_one {n : Nat} (h : n ≤ 0x7F) :
    pushBytes utf8Init [n] = (utf8Init, [n]) := by
  rw [pushBytes, pushByte, if_pos (show utf8Init.needed = 0 from rfl),
    pushStart_ascii h]
  rfl

theorem pushBytes_two {n : Nat} (h1 : 0x80 ≤ n) (h2 : n ≤ 0x7FF) :
    pushBytes utf8Init [0xC0 + n / 64, 0x80 + n % 64] = (utf8Init, [n]) := by
  have e1 : (0xC0 + n / 64) % 32 = n / 64 := by omega
  have e2 : n / 64 * 64 + (0x80 + n % 64) % 64 = n := by omega
  rw [pushBytes, pushByte, if_pos (show utf8Init.needed = 0 from rfl),
    pushStart_two (by omega), e1]
  dsimp only
  rw [pushBytes, pushByte_cont (by omega) (by omega),
    if_pos (show 0 + 1 = 1 from rfl), e2]
  rfl

theorem pushBytes_three {n : Nat} (h1 : 0x800 ≤ n) (h2 : n ≤ 0xFFFF)
    (hs : n < 0xD800 ∨ 0xDFFF < n) :
    pushBytes utf8Init
        [0xE0 + n / 4096, 0x80 + n / 64 % 64, 0x80 + n % 64]
      = (utf8Init, [n]) := by
  have e1 : (0xE0 + n / 4096) % 16 = n / 4096 := by omega
  have e2 : n / 4096 * 64 + (0x80 + n / 64 % 64) % 64 = n / 64 := by omega
  have e3 : n / 64 * 64 + (0x80 + n % 64) % 64 = n := by omega
  have hb2 : (if 0xE0 + n / 4096 = 0xE0 then 0xA0 else 0x80)
        ≤ 0x80 + n / 64 % 64 ∧
      0x80 + n / 64 % 64
        ≤ (if 0xE0 + n / 4096 = 0xED then 0x9F else 0xBF) := by
    constructor
    · by_cases hq : 0xE0 + n / 4096 = 0xE0
      · rw [if_pos hq]; omega
      · rw [if_neg hq]; omega
    · by_cases hq : 0xE0 + n / 4096 = 0xED
      · rw [if_pos hq]; omega
      · rw [if_neg hq]; omega
  rw [pushBytes, pushByte, if_pos (show utf8Init.needed = 0 from rfl),
    pushStart_three (by omega), e1]
  dsimp only
  rw [pushBytes, pushByte_cont (by omega) hb2,
    if_neg (show ¬(0 + 1 = 2) by omega), e2]
  dsimp only
  rw [pushBytes, pushByte_cont (by omega) (by omega),
    if_pos (show 1 + 1 = 2 from rfl), e3]
  rfl

theorem pushBytes_four {n : Nat} (h1 : 0x10000 ≤ n) (h2 : n < 0x110000) :
    pushBytes utf8Init
        [0xF0 + n / 262144, 0x80 + n / 4096 % 64, 0x80 + n / 64 % 64,
          0x80 + n % 64]
      = (utf8Init, [n]) := by
  have e1 : (0xF0 + n / 262144) % 8 = n / 262144 := by omega
  have e2 : n / 262144 * 64 + (0x80 + n / 4096 % 64) % 64 = n / 4096 := by
    omega
  have e3 : n / 4096 * 64 + (0x80 + n / 64 % 64) % 64 = n / 64 := by omega
  have e4 : n / 64 * 64 + (0x80 + n % 64) % 64 = n := by omega
  have hb2 : (if 0xF0 + n / 262144 = 0xF0 then 0x90 else 0x80)
        ≤ 0x80 + n / 4096 % 64 ∧
      0x80 + n / 4096 % 64
        ≤ (if 0xF0 + n / 262144 = 0xF4 then 0x8F else 0xBF) := by
    constructor
    · by_cases hq : 0xF0 + n / 262144 = 0xF0
      · rw [if_pos hq]; omega
      · rw [if_neg hq]; omega
    · by_cases hq : 0xF0 + n / 262144 = 0xF4
      · rw [if_pos hq]; omega
      · rw [if_neg hq]; omega
  rw [pushBytes, pushByte, if_pos (show utf8Init.needed = 0 from rfl),
    pushStart_four (by omega), e1]
  dsimp only
  rw [pushBytes, pushByte_cont (by omega) hb2,
    if_neg (show ¬(0 + 1 = 3) by omega), e2]
  dsimp only
  rw [pushBytes, pushByte_cont (by omega) (by omega),
    if_neg (show ¬(1 + 1 = 3) by omega), e3]
  dsimp only
  rw [pushBytes, pushByte_cont (by omega) (by omega),
    if_pos (show 2 + 1 = 3 from rfl), e4]
  rfl

theorem pushBytes_encodeChar {n : Nat}
    (h : n < 0xD800 ∨ (0xDFFF < n ∧ n < 0x110000)) :
    pushBytes utf8Init (utf8EncodeChar n) = (utf8Init, [n]) := by
  by_cases h1 : n ≤ 0x7F
  · rw [utf8EncodeChar, if_pos h1]
    exact pushBytes_one h1
  · by_cases h2 : n ≤ 0x7FF
    · rw [utf8EncodeChar, if_neg h1, if_pos h2]
      exact pushBytes_two (by omega) h2
    · by_cases h3 : n ≤ 0xFFFF
      · rw [utf8EncodeChar, if_neg h1, if_neg h2, if_pos h3]
        exact pushBytes_three (by omega) h3 (by omega)
      · rw [utf8EncodeChar, if_neg h1, if_neg h2, if_neg h3]
        exact pushBytes_four (by omega) (by omega)

theorem pushBytes_encode (s : List Char) :
    pushBytes utf8Init (utf8Encode s) = (utf8Init, s.map Char.toNat) := by
  induction s with
  | nil => rfl
  | cons c cs ih =>
    have hv : c.toNat < 0xD800 ∨ (0xDFFF < c.toNat ∧ c.toNat < 0x110000) :=
      c.valid
    have hc := pushBytes_encodeChar hv
    have hw : utf8Encode (c :: cs)
        = utf8EncodeChar c.toNat ++ utf8Encode cs := by
      rw [utf8Encode, List.map_cons, List.flatten_cons]
      rfl
    rw [hw, pushBytes_append, hc]
    dsimp only
    rw [ih]
    dsimp only
    rw [List.map_cons, List.singleton_append]

/-- C8: a stream whose well-formed encoded bytes are split at an
arbitrary fragment boundary — in particular in the middle of a
multi-byte character — decodes to exactly the original scalar values,
never a replacement character or mangled bytes, because the single
`TextDecoder` instance retains its state across `decode(value,
{ stream: true })` calls.  (The hypothesis excludes a leading U+FEFF,
which the platform decoder's default BOM rule would skip.) -/
theorem c8_multibyte_split (s : List Char) (k : Nat)
    (h : s.head?.map Char.toNat ≠ some 0xFEFF) :
    decodeChunks [(utf8Encode s).take k, (utf8Encode s).drop k]
      = s.map Char.toNat := by
  have hflat : ([(utf8Encode s).take k, (utf8Encode s).drop k] :
      List (List Nat)).flatten = utf8Encode s := by
    simp [List.take_append_drop]
  rw [decodeChunks, decodeChunksRaw_flatten, hflat, pushBytes_encode]
  cases s with
  | nil => rfl
  | cons c cs =>
    have hc : c.toNat ≠ 0xFEFF := by
      intro hE
      exact h (by simp [hE])
    rw [List.map_cons, stripBom, if_neg hc]

/-- Concrete instantiation of C8: `"hé"` split between the two bytes
of `é`. -/
theorem c8_witness :
    decodeChunks [(utf8Encode ['h', Char.ofNat 0xE9]).take 2,
        (utf8Encode ['h', Char.ofNat 0xE9]).drop 2]
      = ['h', Char.ofNat 0xE9].map Char.toNat :=
  c8_multibyte_split ['h', Char.ofNat 0xE9] 2 (by decide)

end RagStream
